import Mathlib

/-!
Shallow embedding of the smart function-calling framework of this
repository (src/smart_caller.py, src/state_tracker.py) together with
proofs about its eligibility filtering, parameter validation, dispatch
and state serialization.

Modeling conventions:
* Python dicts keyed by strings are modeled as insertion-ordered
  association lists; dictInsert models dict item assignment (replace in
  place keeping the position, append when the key is fresh), matching
  CPython dict semantics.
* JSON-style runtime values are modeled by the inductive type Value.
* Wall-clock instants and durations (Python floats produced by
  time.time) are modeled by an arbitrary linearly ordered additive
  commutative group T, so every theorem below holds in particular for
  real-valued time; concrete counterexamples instantiate T with Int.
* Registered Python callables are modeled as total functions from a
  validated parameter map to Except String Value; the error case stands
  for the callable raising an exception with the given message.
* json.loads applied to the raw-argument string of a call request is
  modeled by an explicit decode parameter of the dispatch function; a
  decode result of none stands for json.JSONDecodeError.
-/

/-- JSON-style runtime value: arguments, results and serialized state. -/
inductive Value where
  | null
  | bool (b : Bool)
  | int (n : Int)
  | num (q : ℚ)
  | str (s : String)
  | arr (elems : List Value)
  | obj (fields : List (String × Value))

/-- A parameter map: Python dict of argument name to value. -/
abbrev Params := List (String × Value)

/-- A registered callable: validated parameters to result, or a raised
exception message. -/
abbrev Func := Params → Except String Value

/-- The fixed set of JSON schema type tags produced by
FunctionRegistry og _get_type_schema (src/smart_caller.py lines 85-102).
The two typed array forms both map to the bare Python list type by
ParameterBuilder._json_type_to_python, hence a single array tag here. -/
inductive JsonType where
  | string
  | integer
  | number
  | boolean
  | array
  | object
deriving DecidableEq

/-- Python dict item assignment d[k] = v on an association list:
replace the first binding of k in place, append when k is absent. -/
def dictInsert {α β : Type} [DecidableEq α] (k : α) (v : β) : List (α × β) → List (α × β)
  | [] => [(k, v)]
  | p :: rest => if p.1 = k then (k, v) :: rest else p :: dictInsert k v rest

/-- FunctionSchema (src/smart_caller.py lines 13-21). The parameters
field keeps only the per-property type tags; the constant wrapper
dict with keys type and properties, and the per-property description
strings, carry no behavior. -/
structure FunctionSchema (T : Type) where
  name : String
  description : String
  parameters : List (String × JsonType)
  required_params : List String
  context_requirements : List String
  priority : Int
  cooldown : T
deriving DecidableEq

/-- FunctionRegistry state (src/smart_caller.py lines 26-30). -/
structure FunctionRegistry (T : Type) where
  functions : List (String × Func)
  schemas : List (String × FunctionSchema T)
  last_called : List (String × T)
  call_count : List (String × Nat)

/-- The empty registry produced by FunctionRegistry.__init__. -/
def emptyRegistry (T : Type) : FunctionRegistry T :=
  { functions := [], schemas := [], last_called := [], call_count := [] }

/-- FunctionRegistry.register (src/smart_caller.py lines 32-83) after
schema synthesis: store the callable and the schema under the schema
name and reset the call counter to zero; the last-called table is left
untouched. -/
def registerR {T : Type} (reg : FunctionRegistry T) (f : Func) (schema : FunctionSchema T) :
    FunctionRegistry T :=
  { functions := dictInsert schema.name f reg.functions
    schemas := dictInsert schema.name schema reg.schemas
    last_called := reg.last_called
    call_count := dictInsert schema.name 0 reg.call_count }

/-- FunctionRegistry.log_call (src/smart_caller.py lines 137-140). -/
def log_call {T : Type} (reg : FunctionRegistry T) (name : String) (now : T) :
    FunctionRegistry T :=
  { reg with
    last_called := dictInsert name now reg.last_called
    call_count := dictInsert name ((reg.call_count.lookup name).getD 0 + 1) reg.call_count }

/-- The sort key used by FunctionRegistry.filter_functions:
self._schemas[f].priority. -/
def schemaPriority {T : Type} (reg : FunctionRegistry T) (f : String) : Int :=
  match reg.schemas.lookup f with
  | some s => s.priority
  | none => 0

/-- Insert a name into a list sorted by key descending, placing it
after every strictly greater key: together with sortByKeyDesc this is
the stable descending sort performed by sorted(key=..., reverse=True). -/
def insertByKeyDesc (key : String → Int) (x : String) : List String → List String
  | [] => [x]
  | y :: ys => if key y > key x then y :: insertByKeyDesc key x ys else x :: y :: ys

/-- Stable sort by key, descending (Python sorted with reverse=True). -/
def sortByKeyDesc (key : String → Int) : List String → List String
  | [] => []
  | x :: xs => insertByKeyDesc key x (sortByKeyDesc key xs)

/-- FunctionRegistry.filter_functions (src/smart_caller.py lines
116-135): keep the registered names whose context requirements are all
present and whose cooldown has elapsed, then sort by priority
descending. A name that was never invoked reads a last-called time of
zero from self._last_called.get(name, 0). -/
def filter_functions {T : Type} [LinearOrderedAddCommGroup T]
    (reg : FunctionRegistry T) (context : List String) (current_time : T) : List String :=
  let available_functions := (reg.schemas.filter (fun p =>
      p.2.context_requirements.all (fun req => context.contains req) &&
      decide (current_time - ((reg.last_called.lookup p.1).getD 0) ≥ p.2.cooldown))).map Prod.fst
  sortByKeyDesc (schemaPriority reg) available_functions

/-- Numeric value of a nonempty all-digit character list. -/
def digitsVal? : List Char → Option Nat
  | [] => none
  | cs => go cs 0
where
  go : List Char → Nat → Option Nat
    | [], acc => some acc
    | c :: cs, acc => if c.isDigit then go cs (acc * 10 + (c.toNat - '0'.toNat)) else none

/-- Integer parsed from a decimal string with optional leading minus
sign: the int-from-string coercion applied by the generated pydantic
model (int(str) semantics restricted to plain decimal literals). -/
def strToInt? (s : String) : Option Int :=
  match s.data with
  | '-' :: rest => (digitsVal? rest).map (fun n => -(n : Int))
  | cs => (digitsVal? cs).map (fun n => (n : Int))

/-- Split a character list at the first dot. -/
def splitAtDot : List Char → List Char × Option (List Char)
  | [] => ([], none)
  | c :: cs =>
      if c = '.' then ([], some cs)
      else
        let r := splitAtDot cs
        (c :: r.1, r.2)

/-- Rational parsed from a decimal string such as -12.5: the
float-from-string coercion applied by the generated pydantic model,
restricted to plain decimal literals. -/
def strToRat? (s : String) : Option ℚ :=
  match s.data with
  | '-' :: rest =>
      match splitAtDot rest with
      | (intPart, none) => (digitsVal? intPart).map (fun n => -(n : ℚ))
      | (intPart, some fracPart) =>
          match digitsVal? intPart, digitsVal? fracPart with
          | some n, some fr =>
              some (-((n : ℚ) + (fr : ℚ) / ((10 : ℚ) ^ fracPart.length)))
          | _, _ => none
  | cs =>
      match splitAtDot cs with
      | (intPart, none) => (digitsVal? intPart).map (fun n => (n : ℚ))
      | (intPart, some fracPart) =>
          match digitsVal? intPart, digitsVal? fracPart with
          | some n, some fr =>
              some ((n : ℚ) + (fr : ℚ) / ((10 : ℚ) ^ fracPart.length))
          | _, _ => none

/-- Boolean parsed from a string, the boolean-like forms accepted by
pydantic lax validation, case-insensitively. -/
def strToBool? (s : String) : Option Bool :=
  let t := s.data.map Char.toLower
  if t = "true".data || t = "t".data || t = "yes".data || t = "on".data || t = "1".data then
    some true
  else if t = "false".data || t = "f".data || t = "no".data || t = "off".data
      || t = "0".data then
    some false
  else none

/-- Lax coercion of one supplied value to a schema type tag: the
validation the dynamically created pydantic model applies per field
(src/smart_caller.py lines 160-179, pydantic v2 lax mode). The array
and object tags map to the bare Python list and dict types, so their
contents are accepted uninspected. Returns none when the value cannot
be coerced, modeling a per-field ValidationError. -/
def coerceValue : JsonType → Value → Option Value
  | .string, .str s => some (.str s)
  | .string, _ => none
  | .integer, .int n => some (.int n)
  | .integer, .num q => if q.den = 1 then some (.int q.num) else none
  | .integer, .str s => (strToInt? s).map Value.int
  | .integer, _ => none
  | .number, .int n => some (.num (n : ℚ))
  | .number, .num q => some (.num q)
  | .number, .str s => (strToRat? s).map Value.num
  | .number, _ => none
  | .boolean, .bool b => some (.bool b)
  | .boolean, .int n =>
      if n = 0 then some (.bool false) else if n = 1 then some (.bool true) else none
  | .boolean, .num q =>
      if q = 0 then some (.bool false) else if q = 1 then some (.bool true) else none
  | .boolean, .str s => (strToBool? s).map Value.bool
  | .boolean, _ => none
  | .array, .arr elems => some (.arr elems)
  | .array, _ => none
  | .object, .obj fields => some (.obj fields)
  | .object, _ => none

/-- Field-by-field validation performed by instantiating the generated
pydantic model and dumping it: every declared property is coerced from
the supplied data when present and defaults to None when absent (the
model is created with default None for optional fields and model_dump
emits every field); keys of the data that are not declared properties
are ignored (pydantic default extra behavior). Fails when some
supplied value for a declared property cannot be coerced. -/
def validateFields (props : List (String × JsonType)) (data : Params) : Except String Params :=
  match props with
  | [] => .ok []
  | (n, ty) :: rest =>
      match data.lookup n with
      | some v =>
          match coerceValue ty v with
          | some v2 => (validateFields rest data).map (fun m => (n, v2) :: m)
          | none => .error ("Invalid parameters: " ++ n)
      | none => (validateFields rest data).map (fun m => (n, Value.null) :: m)

/-- ParameterBuilder.build_parameters (src/smart_caller.py lines
149-182): look up the schema, check the required parameters are
present, then validate via the dynamically created pydantic model.
The error case stands for the ValueError raised by the source. -/
def build_parameters {T : Type} (reg : FunctionRegistry T) (function_name : String)
    (params_data : Params) : Except String Params :=
  match reg.schemas.lookup function_name with
  | none => .error ("Unknown function: " ++ function_name)
  | some schema =>
      match schema.required_params.find? (fun r => (params_data.lookup r).isNone) with
      | some r => .error ("Missing required parameter: " ++ r)
      | none => validateFields schema.parameters params_data

/-- The response dict returned by SmartCaller.execute_function_call:
either the success shape with result, execution_time and success True,
or the failure shape with error and success False. -/
structure Outcome (T : Type) where
  result : Option Value
  execution_time : Option T
  error : Option String
  success : Bool

/-- Failure response dict: error plus success False. -/
def errOutcome {T : Type} (msg : String) : Outcome T :=
  { result := none, execution_time := none, error := some msg, success := false }

/-- Success response dict: result, execution_time and success True. -/
def okOutcome {T : Type} (v : Value) (dt : T) : Outcome T :=
  { result := some v, execution_time := some dt, error := none, success := true }

/-- The raw arguments of a call request: already-structured data, a
serialized string still to be decoded, or absent (absent arguments
default to the literal string parsing to the empty dict). -/
inductive ArgsInput where
  | structured (kvs : Params)
  | serialized (s : String)
  | absent

/-- A model-issued call request: call_data.get(name) and
call_data.get(arguments). -/
structure CallData where
  name : Option String
  arguments : ArgsInput

/-- One entry of the list built by
SmartCaller.get_function_descriptions (src/smart_caller.py lines
209-223); the constant outer wrapper with key type and value function
is not represented. -/
structure FunctionDescription where
  name : String
  description : String
  parameters : List (String × JsonType)

/-- SmartCaller state (src/smart_caller.py lines 200-203): the
registry, the lru_cache slot of get_function_descriptions (none until
the first call), and the results cache. The cache key is the function
name with its canonically ordered validated parameters, standing for
the string produced with json.dumps sort_keys True. -/
structure SmartCallerState (T : Type) where
  registry : FunctionRegistry T
  desc_cache : Option (List FunctionDescription)
  results_cache : List ((String × Params) × Outcome T)

/-- A fresh SmartCaller (SmartCaller.__init__). -/
def newSmartCaller (T : Type) : SmartCallerState T :=
  { registry := emptyRegistry T, desc_cache := none, results_cache := [] }

/-- SmartCaller.register_function: delegate to the registry; the
lru_cache of get_function_descriptions is never invalidated. -/
def register_function {T : Type} (st : SmartCallerState T) (f : Func)
    (schema : FunctionSchema T) : SmartCallerState T :=
  { st with registry := registerR st.registry f schema }

/-- SmartCaller.get_function_descriptions (src/smart_caller.py lines
209-223) with its lru_cache decorator: on the first call build the
description list from all registered schemas and cache it; afterwards
return the cached list unchanged. -/
def get_function_descriptions {T : Type} (st : SmartCallerState T) :
    List FunctionDescription × SmartCallerState T :=
  match st.desc_cache with
  | some ds => (ds, st)
  | none =>
      let ds := st.registry.schemas.map (fun p =>
        { name := p.2.name, description := p.2.description, parameters := p.2.parameters })
      (ds, { st with desc_cache := some ds })

/-- SmartCaller.prepare_for_llm (src/smart_caller.py lines 225-237):
filter the full description list down to the currently available
function names. -/
def prepare_for_llm {T : Type} [LinearOrderedAddCommGroup T] (st : SmartCallerState T)
    (context : List String) (now : T) : List FunctionDescription × SmartCallerState T :=
  let available_functions := filter_functions st.registry context now
  let r := get_function_descriptions st
  (r.1.filter (fun desc => available_functions.contains desc.name), r.2)

/-- The raw-argument decoding step of SmartCaller.execute_function_call
(src/smart_caller.py lines 246-253): structured data passes through, a
serialized string is decoded with json.loads and a decode failure
falls back to the empty dict, and absent arguments default to the
string parsing to the empty dict. -/
def decodeArgs (a : ArgsInput) (decode : String → Option Params) : Params :=
  match a with
  | .structured kvs => kvs
  | .serialized s => (decode s).getD []
  | .absent => []

/-- Insert a parameter binding into a list sorted by name ascending:
canonical ordering of the cache key (json.dumps sort_keys True). -/
def insertParamAsc (p : String × Value) : Params → Params
  | [] => [p]
  | q :: qs => if decide (p.1 ≤ q.1) then p :: q :: qs else q :: insertParamAsc p qs

/-- Sort a parameter map by name ascending for the cache key. -/
def sortParamsAsc : Params → Params
  | [] => []
  | p :: ps => insertParamAsc p (sortParamsAsc ps)

/-- SmartCaller.execute_function_call (src/smart_caller.py lines
239-301). Steps in source order: decode raw arguments permissively;
unknown name fails; a name outside the current filter_functions output
fails; parameter building failure (a raised ValueError) is caught and
fails without touching the registry; otherwise the call is logged via
log_call and only then the callable runs, a raised exception being
caught and reported as a failure outcome; on success the response is
stored in the results cache. The new cache entry is prepended, which
is observationally the dict overwrite of the source: lookups see the
newest binding of a key first. dt is the measured wall-clock duration
of the callable. -/
def execute_function_call {T : Type} [LinearOrderedAddCommGroup T]
    (st : SmartCallerState T) (call_data : CallData) (context : List String)
    (now dt : T) (decode : String → Option Params) : Outcome T × SmartCallerState T :=
  let function_args := decodeArgs call_data.arguments decode
  match call_data.name with
  | none => (errOutcome "Unknown function: None", st)
  | some function_name =>
      match st.registry.functions.lookup function_name with
      | none => (errOutcome ("Unknown function: " ++ function_name), st)
      | some func =>
          if function_name ∈ filter_functions st.registry context now then
            match build_parameters st.registry function_name function_args with
            | .error e => (errOutcome e, st)
            | .ok validated_params =>
                let reg2 := log_call st.registry function_name now
                match func validated_params with
                | .error e => (errOutcome e, { st with registry := reg2 })
                | .ok result =>
                    let response := okOutcome result dt
                    (response,
                      { st with
                        registry := reg2
                        results_cache :=
                          ((function_name, sortParamsAsc validated_params), response)
                            :: st.results_cache })
          else
            (errOutcome ("Function " ++ function_name ++ " is not available in current context"),
              st)

/-- A registry operation during the process lifetime: a registration
(FunctionRegistry.register) or a dispatched-call record
(FunctionRegistry.log_call); the registry offers no removal operation. -/
inductive RegOp (T : Type) where
  | register (f : Func) (schema : FunctionSchema T)
  | logCall (name : String) (now : T)

/-- Whether an operation registers (or re-registers) the given name. -/
def registersName {T : Type} (op : RegOp T) (n : String) : Prop :=
  match op with
  | .register _ schema => schema.name = n
  | .logCall _ _ => False

instance {T : Type} (op : RegOp T) (n : String) : Decidable (registersName op n) :=
  match op with
  | .register _ schema => decidable_of_iff (schema.name = n) Iff.rfl
  | .logCall _ _ => isFalse (fun h => h)

/-- Apply one registry operation. -/
def applyOp {T : Type} (reg : FunctionRegistry T) (op : RegOp T) : FunctionRegistry T :=
  match op with
  | .register f schema => registerR reg f schema
  | .logCall name now => log_call reg name now

/-- Apply a sequence of registry operations in order. -/
def applyOps {T : Type} (reg : FunctionRegistry T) (ops : List (RegOp T)) :
    FunctionRegistry T :=
  ops.foldl applyOp reg

/-- StateTracker (src/state_tracker.py lines 5-23). State values and
history entries are JSON-style values; timestamps are the rational
numbers (exactly representable Python floats). -/
structure StateTracker where
  session_id : String
  ttl : ℚ
  created_at : ℚ
  last_updated : ℚ
  state : List (String × Value)
  history : List Value

/-- StateTracker.to_json (src/state_tracker.py lines 63-71): the JSON
document passed to json.dumps. -/
def to_json (t : StateTracker) : Value :=
  .obj [("session_id", .str t.session_id), ("created_at", .num t.created_at),
        ("last_updated", .num t.last_updated), ("state", .obj t.state),
        ("history", .arr t.history)]

/-- Read a JSON string field. -/
def asStr : Value → Option String
  | .str s => some s
  | _ => none

/-- Read a JSON number field. -/
def asNum : Value → Option ℚ
  | .num q => some q
  | _ => none

/-- Read a JSON object field. -/
def asObj : Value → Option (List (String × Value))
  | .obj fields => some fields
  | _ => none

/-- Read a JSON array field. -/
def asArr : Value → Option (List Value)
  | .arr elems => some elems
  | _ => none

/-- StateTracker.from_json (src/state_tracker.py lines 73-82): build a
tracker from the parsed JSON document. The constructor runs with the
deserialized session_id and the default ttl of 3600; because the
constructor computes session_id or a fresh generated id
(src/state_tracker.py line 18) and the empty string is falsy, an empty
deserialized session_id is replaced by the generated id built from the
integer part of the constructor call instant, passed here as now. The
freshly taken constructor timestamps are immediately overwritten by
the deserialized ones; state and history are assigned verbatim. -/
def from_json (j : Value) (now : ℤ) : Option StateTracker :=
  match j with
  | .obj data => do
      let sid ← (data.lookup "session_id").bind asStr
      let ca ← (data.lookup "created_at").bind asNum
      let lu ← (data.lookup "last_updated").bind asNum
      let stv ← (data.lookup "state").bind asObj
      let hist ← (data.lookup "history").bind asArr
      some { session_id := if sid = "" then "session_" ++ toString now else sid,
             ttl := 3600, created_at := ca, last_updated := lu,
             state := stv, history := hist }
  | _ => none

/-! ### Helper lemmas on the association-list and sorting primitives -/

theorem mem_insertByKeyDesc (key : String → Int) (x a : String) (l : List String) :
    a ∈ insertByKeyDesc key x l ↔ a = x ∨ a ∈ l := by
  induction l with
  | nil => simp [insertByKeyDesc]
  | cons y ys ih =>
      by_cases h : key y > key x
      · simp only [insertByKeyDesc, if_pos h, List.mem_cons, ih]
        tauto
      · simp only [insertByKeyDesc, if_neg h, List.mem_cons]

theorem pairwise_insertByKeyDesc (key : String → Int) (x : String) (l : List String)
    (h : l.Pairwise (fun a b => key a ≥ key b)) :
    (insertByKeyDesc key x l).Pairwise (fun a b => key a ≥ key b) := by
  induction l with
  | nil => simp [insertByKeyDesc]
  | cons y ys ih =>
      rcases List.pairwise_cons.mp h with ⟨hy, hys⟩
      by_cases hgt : key y > key x
      · rw [insertByKeyDesc, if_pos hgt]
        refine List.pairwise_cons.mpr ⟨?_, ih hys⟩
        intro b hb
        rcases (mem_insertByKeyDesc key x b ys).mp hb with rfl | hb2
        · exact le_of_lt hgt
        · exact hy b hb2
      · rw [insertByKeyDesc, if_neg hgt]
        refine List.pairwise_cons.mpr ⟨?_, h⟩
        intro b hb
        rcases List.mem_cons.mp hb with rfl | hb2
        · exact le_of_not_lt hgt
        · have h1 := hy b hb2
          have h2 := le_of_not_lt hgt
          omega

theorem mem_sortByKeyDesc (key : String → Int) (a : String) (l : List String) :
    a ∈ sortByKeyDesc key l ↔ a ∈ l := by
  induction l with
  | nil => simp [sortByKeyDesc]
  | cons x xs ih =>
      simp only [sortByKeyDesc, mem_insertByKeyDesc, List.mem_cons, ih]

theorem pairwise_sortByKeyDesc (key : String → Int) (l : List String) :
    (sortByKeyDesc key l).Pairwise (fun a b => key a ≥ key b) := by
  induction l with
  | nil => simp [sortByKeyDesc]
  | cons x xs ih => exact pairwise_insertByKeyDesc key x _ ih

theorem lookup_dictInsert_self {β : Type} (k : String) (v : β) (d : List (String × β)) :
    (dictInsert k v d).lookup k = some v := by
  induction d with
  | nil => simp [dictInsert, List.lookup]
  | cons p rest ih =>
      rcases p with ⟨k2, v2⟩
      by_cases h : k2 = k
      · subst h
        simp [dictInsert, List.lookup]
      · have hbeq : (k == k2) = false := beq_eq_false_iff_ne.mpr (Ne.symm h)
        simp [dictInsert, h, List.lookup, hbeq, ih]

theorem lookup_dictInsert_ne {β : Type} (k k2 : String) (v : β) (d : List (String × β))
    (hne : k2 ≠ k) : (dictInsert k v d).lookup k2 = d.lookup k2 := by
  have hbeq : (k2 == k) = false := beq_eq_false_iff_ne.mpr hne
  induction d with
  | nil => simp [dictInsert, List.lookup, hbeq]
  | cons p rest ih =>
      rcases p with ⟨k3, v3⟩
      by_cases h : k3 = k
      · subst h
        simp [dictInsert, List.lookup, hbeq]
      · simp [dictInsert, h, List.lookup, ih]

theorem mem_map_fst_dictInsert {β : Type} (k n : String) (v : β) (d : List (String × β))
    (h : n ∈ d.map Prod.fst) : n ∈ (dictInsert k v d).map Prod.fst := by
  induction d with
  | nil => simp at h
  | cons p rest ih =>
      rw [List.map_cons, List.mem_cons] at h
      by_cases hk : p.1 = k
      · rw [dictInsert, if_pos hk, List.map_cons]
        rcases h with h1 | h1
        · exact List.mem_cons.mpr (Or.inl (h1.trans hk))
        · exact List.mem_cons.mpr (Or.inr h1)
      · rw [dictInsert, if_neg hk, List.map_cons]
        rcases h with h1 | h1
        · exact List.mem_cons.mpr (Or.inl h1)
        · exact List.mem_cons.mpr (Or.inr (ih h1))

/-! ### Claim C1 -/

/-- Claim C1, amended: filter_functions returns exactly the names of
registered callables whose context requirements are all present in the
context and for which the elapsed time since the recorded last
invocation is at least the cooldown, where a never-invoked callable
reads a default last-invocation time of zero (hence it is
cooldown-eligible iff current_time minus zero is at least the
cooldown, not unconditionally); the returned names are sorted by
priority in non-increasing order. -/
theorem C1_filter_eligible {T : Type} [LinearOrderedAddCommGroup T]
    (reg : FunctionRegistry T) (context : List String) (current_time : T) :
    (∀ n, n ∈ filter_functions reg context current_time ↔
      ∃ s, (n, s) ∈ reg.schemas ∧ (∀ r ∈ s.context_requirements, r ∈ context) ∧
        current_time - ((reg.last_called.lookup n).getD 0) ≥ s.cooldown)
    ∧ (filter_functions reg context current_time).Pairwise
        (fun a b => schemaPriority reg a ≥ schemaPriority reg b) := by
  constructor
  · intro n
    simp only [filter_functions, mem_sortByKeyDesc, List.mem_map, List.mem_filter,
      Bool.and_eq_true, List.all_eq_true, decide_eq_true_eq]
    constructor
    · rintro ⟨⟨m, s⟩, ⟨hmem, hctx, hcd⟩, rfl⟩
      exact ⟨s, hmem, fun r hr => by simpa using hctx r hr, hcd⟩
    · rintro ⟨s, hmem, hctx, hcd⟩
      exact ⟨(n, s), ⟨hmem, fun r hr => by simpa using hctx r hr, hcd⟩, rfl⟩
  · exact pairwise_sortByKeyDesc _ _

/-- Concrete registry for the C1 counterexample: one callable with a
cooldown of 10 time units, never invoked. -/
def schemaC1 : FunctionSchema ℤ :=
  { name := "f", description := "d", parameters := [], required_params := [],
    context_requirements := [], priority := 5, cooldown := 10 }

/-- Registry holding only schemaC1, with an empty last-called table. -/
def regC1 : FunctionRegistry ℤ := registerR (emptyRegistry ℤ) (fun _ => .ok .null) schemaC1

/-- Claim C1, counterexample: a registered callable with every context
requirement met (it has none) that was never invoked is nevertheless
absent from the filter_functions output at time 5, because its
cooldown of 10 exceeds the never-invoked default last-called time of
zero plus the current time; so a never-invoked callable is not always
cooldown-eligible, refuting the claim as stated. -/
theorem C1_counterexample :
    ("f", schemaC1) ∈ regC1.schemas ∧ schemaC1.context_requirements = [] ∧
    regC1.last_called.lookup "f" = none ∧ filter_functions regC1 [] 5 = [] := by
  refine ⟨by decide, rfl, rfl, by decide⟩

/-- Closed instance of the C1 theorem: at time 10 the cooldown of the
callable above has elapsed from the default last-called time zero, so
it appears in the output. -/
theorem C1_witness : "f" ∈ filter_functions regC1 [] 10 :=
  ((C1_filter_eligible regC1 [] 10).1 "f").mpr
    ⟨schemaC1, by decide, by decide, by decide⟩

/-! ### Claim C8 -/

theorem regNames_applyOp_mono {T : Type} (reg : FunctionRegistry T) (op : RegOp T)
    (n : String) (h : n ∈ reg.schemas.map Prod.fst) :
    n ∈ (applyOp reg op).schemas.map Prod.fst := by
  cases op with
  | register f schema => exact mem_map_fst_dictInsert _ _ _ _ h
  | logCall name now => exact h

theorem count_applyOp_mono {T : Type} (reg : FunctionRegistry T) (op : RegOp T)
    (n : String) (h : ¬ registersName op n) :
    (reg.call_count.lookup n).getD 0 ≤ ((applyOp reg op).call_count.lookup n).getD 0 := by
  cases op with
  | register f schema =>
      have hne : n ≠ schema.name := fun he => h (he.symm)
      simp only [applyOp, registerR]
      rw [lookup_dictInsert_ne _ _ _ _ hne]
  | logCall m t =>
      by_cases hm : n = m
      · subst hm
        simp only [applyOp, log_call]
        rw [lookup_dictInsert_self]
        simp
      · simp only [applyOp, log_call]
        rw [lookup_dictInsert_ne _ _ _ _ hm]

/-- Claim C8, amended: across every sequence of registry operations a
registered name is never destroyed (registration records persist, the
registry has no removal operation), and the call counter of a name
never decreases across a sequence of operations as long as that
sequence does not re-register the name; re-registering an existing
name, however, resets its counter to zero (see the counterexample). -/
theorem C8_registry_records {T : Type} (reg : FunctionRegistry T) (ops : List (RegOp T))
    (n : String) :
    (n ∈ reg.schemas.map Prod.fst → n ∈ (applyOps reg ops).schemas.map Prod.fst)
    ∧ ((∀ op ∈ ops, ¬ registersName op n) →
        (reg.call_count.lookup n).getD 0 ≤ ((applyOps reg ops).call_count.lookup n).getD 0) := by
  induction ops generalizing reg with
  | nil => exact ⟨fun h => h, fun _ => le_refl _⟩
  | cons op rest ih =>
      constructor
      · intro h
        exact (ih (applyOp reg op)).1 (regNames_applyOp_mono reg op n h)
      · intro h
        refine le_trans (count_applyOp_mono reg op n (h op (List.mem_cons_self op rest))) ?_
        exact (ih (applyOp reg op)).2 (fun o ho => h o (List.mem_cons_of_mem op ho))

/-- The callable used in the C8 scenario. -/
def funcC8 : Func := fun _ => .ok .null

/-- The schema used in the C8 scenario. -/
def schemaC8 : FunctionSchema ℤ :=
  { name := "f", description := "d", parameters := [], required_params := [],
    context_requirements := [], priority := 5, cooldown := 0 }

/-- Claim C8, counterexample: after registering f and dispatching it
once the counter is 1; re-registering the same name resets the counter
to 0, so the call counter is not monotonically increasing across
registry operations. -/
theorem C8_counterexample :
    ((applyOps (emptyRegistry ℤ)
        [.register funcC8 schemaC8, .logCall "f" 1]).call_count.lookup "f" = some 1)
    ∧ ((applyOps (emptyRegistry ℤ)
        [.register funcC8 schemaC8, .logCall "f" 1,
         .register funcC8 schemaC8]).call_count.lookup "f" = some 0) :=
  ⟨rfl, rfl⟩

/-- Registry for the C8 witness: f registered, never called. -/
def regC8 : FunctionRegistry ℤ := registerR (emptyRegistry ℤ) funcC8 schemaC8

/-- Closed instance of the C8 theorem on a concrete registry and a
register-free operation sequence. -/
theorem C8_witness :
    ("f" ∈ (applyOps regC8 [.logCall "f" 2]).schemas.map Prod.fst)
    ∧ ((regC8.call_count.lookup "f").getD 0 ≤
        ((applyOps regC8 [.logCall "f" 2]).call_count.lookup "f").getD 0) :=
  ⟨(C8_registry_records regC8 [.logCall "f" 2] "f").1 (by decide),
   (C8_registry_records regC8 [.logCall "f" 2] "f").2 (by decide)⟩

/-! ### Claim C2 -/

/-- Claim C2, amended: for a dispatch of a known, eligible callable,
the invocation is recorded (last-invocation timestamp set to now, call
counter incremented) after parameter validation succeeds and before
the outcome of executing the callable is determined, so the cooldown
is consumed even when the executed callable raises; but when parameter
validation fails the registry is left untouched (no cooldown consumed)
and the dispatch fails. -/
theorem C2_invocation_recording {T : Type} [LinearOrderedAddCommGroup T]
    (st : SmartCallerState T) (nm : String) (func : Func) (args : ArgsInput)
    (context : List String) (now dt : T) (decode : String → Option Params)
    (hf : st.registry.functions.lookup nm = some func)
    (he : nm ∈ filter_functions st.registry context now) :
    (∀ m, build_parameters st.registry nm (decodeArgs args decode) = .ok m →
        ((execute_function_call st ⟨some nm, args⟩ context now dt
            decode).2.registry.last_called.lookup nm = some now)
        ∧ ((execute_function_call st ⟨some nm, args⟩ context now dt
            decode).2.registry.call_count.lookup nm
              = some ((st.registry.call_count.lookup nm).getD 0 + 1)))
    ∧ (∀ e, build_parameters st.registry nm (decodeArgs args decode) = .error e →
        ((execute_function_call st ⟨some nm, args⟩ context now dt decode).2 = st)
        ∧ ((execute_function_call st ⟨some nm, args⟩ context now dt decode).1
            = errOutcome e)) := by
  constructor
  · intro m hm
    have hreg : (execute_function_call st ⟨some nm, args⟩ context now dt decode).2.registry
        = log_call st.registry nm now := by
      simp only [execute_function_call, hf, hm]
      rw [if_pos he]
      cases hfm : func m <;> simp [hfm]
    rw [hreg]
    constructor
    · simp only [log_call]
      exact lookup_dictInsert_self _ _ _
    · simp only [log_call]
      exact lookup_dictInsert_self _ _ _
  · intro e hm
    constructor
    · simp only [execute_function_call, hf, hm]
      rw [if_pos he]
    · simp only [execute_function_call, hf, hm]
      rw [if_pos he]

/-- The callable used in the C2 counterexample. -/
def funcC2 : Func := fun _ => .ok (.int 0)

/-- Schema of a callable with one required integer parameter, no
context requirements and no cooldown. -/
def schemaC2 : FunctionSchema ℤ :=
  { name := "f", description := "d", parameters := [("a", .integer)],
    required_params := ["a"], context_requirements := [], priority := 5, cooldown := 0 }

/-- SmartCaller holding only the callable above. -/
def stC2 : SmartCallerState ℤ := register_function (newSmartCaller ℤ) funcC2 schemaC2

/-- Claim C2, counterexample: dispatching the known, eligible callable
f with its required parameter missing makes parameter validation fail,
and the invocation is not recorded: the call counter stays 0 and no
last-invocation timestamp is written, so the cooldown is not consumed
on a validation failure, refuting the claim as stated. -/
theorem C2_counterexample :
    ((stC2.registry.functions.lookup "f").isSome = true)
    ∧ ("f" ∈ filter_functions stC2.registry [] 0)
    ∧ ((execute_function_call stC2 ⟨some "f", .structured []⟩ [] 0 0
          (fun _ => none)).1.success = false)
    ∧ ((execute_function_call stC2 ⟨some "f", .structured []⟩ [] 0 0
          (fun _ => none)).2.registry.call_count.lookup "f" = some 0)
    ∧ ((execute_function_call stC2 ⟨some "f", .structured []⟩ [] 0 0
          (fun _ => none)).2.registry.last_called.lookup "f" = none) :=
  ⟨rfl, by decide, rfl, rfl, rfl⟩

/-- A callable that always raises. -/
def funcBoom : Func := fun _ => .error "boom"

/-- Schema of the raising callable used in the C2 witness. -/
def schemaC2w : FunctionSchema ℤ :=
  { name := "g", description := "d", parameters := [("a", .integer)],
    required_params := ["a"], context_requirements := [], priority := 5, cooldown := 0 }

/-- SmartCaller holding only the raising callable. -/
def stC2w : SmartCallerState ℤ := register_function (newSmartCaller ℤ) funcBoom schemaC2w

/-- Closed instance of the C2 theorem: the callable raises, yet the
invocation is recorded (timestamp written, counter incremented), so
the cooldown is consumed by the failed execution. -/
theorem C2_witness :
    ((execute_function_call stC2w ⟨some "g", .structured [("a", .int 2)]⟩ [] 3 0
        (fun _ => none)).2.registry.last_called.lookup "g" = some 3)
    ∧ ((execute_function_call stC2w ⟨some "g", .structured [("a", .int 2)]⟩ [] 3 0
        (fun _ => none)).2.registry.call_count.lookup "g" = some 1) :=
  (C2_invocation_recording stC2w "g" funcBoom (.structured [("a", .int 2)]) [] 3 0
    (fun _ => none) rfl (by decide)).1 [("a", .int 2)] rfl

/-! ### Claim C5 -/

/-- Claim C5: every dispatch returns a structured outcome that is
exclusively either a success (result and execution time present, no
error field) or a failure (error present, no result and no execution
time); and an exception raised by the executed callable is never
propagated: it yields the failure outcome carrying the raised message. -/
theorem C5_structured_outcome {T : Type} [LinearOrderedAddCommGroup T]
    (st : SmartCallerState T) (call_data : CallData) (context : List String)
    (now dt : T) (decode : String → Option Params) :
    (((execute_function_call st call_data context now dt decode).1.success = true
        ∧ ((execute_function_call st call_data context now dt decode).1.result).isSome = true
        ∧ ((execute_function_call st call_data context now dt
              decode).1.execution_time).isSome = true
        ∧ (execute_function_call st call_data context now dt decode).1.error = none)
      ∨ ((execute_function_call st call_data context now dt decode).1.success = false
        ∧ ((execute_function_call st call_data context now dt decode).1.error).isSome = true
        ∧ (execute_function_call st call_data context now dt decode).1.result = none
        ∧ (execute_function_call st call_data context now dt decode).1.execution_time = none))
    ∧ (∀ nm func m e, call_data.name = some nm →
        st.registry.functions.lookup nm = some func →
        nm ∈ filter_functions st.registry context now →
        build_parameters st.registry nm (decodeArgs call_data.arguments decode) = .ok m →
        func m = .error e →
        (execute_function_call st call_data context now dt decode).1 = errOutcome e) := by
  rcases call_data with ⟨nameOpt, args⟩
  constructor
  · cases nameOpt with
    | none => right; exact ⟨rfl, rfl, rfl, rfl⟩
    | some nm =>
        cases hf : st.registry.functions.lookup nm with
        | none => right; simp [execute_function_call, hf, errOutcome]
        | some func =>
            by_cases he : nm ∈ filter_functions st.registry context now
            · cases hb : build_parameters st.registry nm (decodeArgs args decode) with
              | error e => right; simp [execute_function_call, hf, hb, he, errOutcome]
              | ok m =>
                  cases hfm : func m with
                  | error e =>
                      right; simp [execute_function_call, hf, hb, he, hfm, errOutcome]
                  | ok v => left; simp [execute_function_call, hf, hb, he, hfm, okOutcome]
            · right; simp [execute_function_call, hf, he, errOutcome]
  · intro nm func m e hname hf he hb hfm
    simp only at hname
    subst hname
    simp only [execute_function_call, hf, hb, hfm]
    rw [if_pos he]

/-- Closed instance of the C5 theorem: the callable raises boom, and
the dispatch returns the failure outcome carrying boom instead of
propagating the exception. -/
theorem C5_witness :
    (execute_function_call stC2w ⟨some "g", .structured [("a", .int 5)]⟩ [] 0 0
        (fun _ => none)).1 = errOutcome "boom" :=
  (C5_structured_outcome stC2w ⟨some "g", .structured [("a", .int 5)]⟩ [] 0 0
      (fun _ => none)).2 "g" funcBoom [("a", .int 5)] "boom" rfl rfl (by decide) rfl rfl

/-! ### Claim C6 -/

/-- Claim C6: when the raw arguments are a serialized string that
fails to decode, the dispatch is not failed on that account: it
behaves exactly as a dispatch of the same request with an empty
structured argument set. -/
theorem C6_decode_fallback {T : Type} [LinearOrderedAddCommGroup T]
    (st : SmartCallerState T) (nameOpt : Option String) (s : String)
    (context : List String) (now dt : T) (decode : String → Option Params)
    (h : decode s = none) :
    execute_function_call st ⟨nameOpt, .serialized s⟩ context now dt decode
      = execute_function_call st ⟨nameOpt, .structured []⟩ context now dt decode := by
  simp only [execute_function_call, decodeArgs, h, Option.getD_none]

/-- Closed instance of the C6 theorem on a concrete state and an
undecodable argument string. -/
theorem C6_witness :
    execute_function_call stC2 ⟨some "f", .serialized "oops"⟩ [] 0 0 (fun _ => none)
      = execute_function_call stC2 ⟨some "f", .structured []⟩ [] 0 0 (fun _ => none) :=
  C6_decode_fallback stC2 (some "f") "oops" [] 0 0 (fun _ => none) rfl

/-! ### Claim C3 -/

theorem map_filter_comp {α β : Type} (l : List α) (f : α → β) (p : β → Bool) :
    (l.filter (fun a => p (f a))).map f = (l.map f).filter p := by
  induction l with
  | nil => rfl
  | cons x xs ih => by_cases h : p (f x) <;> simp [h, ih]

theorem mem_filter_functions_name {T : Type} [LinearOrderedAddCommGroup T]
    (reg : FunctionRegistry T) (context : List String) (now : T) (n : String)
    (h : n ∈ filter_functions reg context now) : n ∈ reg.schemas.map Prod.fst := by
  simp only [filter_functions, mem_sortByKeyDesc, List.mem_map, List.mem_filter] at h
  rcases h with ⟨p, ⟨hp, _⟩, rfl⟩
  exact List.mem_map_of_mem Prod.fst hp

/-- Claim C3, amended: on a SmartCaller whose description cache is
still fresh, prepare_for_llm returns the descriptions of exactly the
names in the filter_functions output (the same set of names), but in
schema registration order rather than in the priority-descending order
of filter_functions (see the counterexample for the order mismatch). -/
theorem C3_prepare_for_llm {T : Type} [LinearOrderedAddCommGroup T]
    (reg : FunctionRegistry T) (context : List String) (now : T)
    (hwf : ∀ p ∈ reg.schemas, (p.2 : FunctionSchema T).name = p.1) :
    ((prepare_for_llm ⟨reg, none, []⟩ context now).1.map FunctionDescription.name
        = (reg.schemas.map Prod.fst).filter
            (fun n => (filter_functions reg context now).contains n))
    ∧ (∀ n, n ∈ (prepare_for_llm ⟨reg, none, []⟩ context now).1.map FunctionDescription.name
        ↔ n ∈ filter_functions reg context now) := by
  have hmap : (prepare_for_llm ⟨reg, none, []⟩ context now).1.map FunctionDescription.name
      = (reg.schemas.map Prod.fst).filter
          (fun n => (filter_functions reg context now).contains n) := by
    simp only [prepare_for_llm, get_function_descriptions]
    rw [map_filter_comp]
    congr 1
    rw [List.map_map]
    exact List.map_congr_left (fun p hp => hwf p hp)
  refine ⟨hmap, fun n => ?_⟩
  rw [hmap, List.mem_filter]
  constructor
  · rintro ⟨_, hc⟩
    simpa using hc
  · intro hn
    exact ⟨mem_filter_functions_name reg context now n hn, by simpa using hn⟩

/-- The callable used in the C3 scenario. -/
def funcC3 : Func := fun _ => .ok .null

/-- Low-priority schema registered first. -/
def schemaLow : FunctionSchema ℤ :=
  { name := "low", description := "d", parameters := [], required_params := [],
    context_requirements := [], priority := 1, cooldown := 0 }

/-- High-priority schema registered second. -/
def schemaHigh : FunctionSchema ℤ :=
  { name := "high", description := "d", parameters := [], required_params := [],
    context_requirements := [], priority := 10, cooldown := 0 }

/-- SmartCaller with low registered before high. -/
def stC3 : SmartCallerState ℤ :=
  register_function (register_function (newSmartCaller ℤ) funcC3 schemaLow) funcC3 schemaHigh

/-- Claim C3, counterexample: both callables are eligible;
filter_functions orders them by priority descending (high before low),
but prepare_for_llm returns their schemas in registration order (low
before high), so the prepare_for_llm order is not the
filter_functions order, refuting the claim as stated. -/
theorem C3_counterexample :
    ((prepare_for_llm stC3 [] 0).1.map FunctionDescription.name = ["low", "high"])
    ∧ (filter_functions stC3.registry [] 0 = ["high", "low"])
    ∧ ((prepare_for_llm stC3 [] 0).1.map FunctionDescription.name
        ≠ filter_functions stC3.registry [] 0) :=
  ⟨rfl, by decide, by decide⟩

/-- Closed instance of the C3 theorem on the two-callable registry. -/
theorem C3_witness :
    (prepare_for_llm ⟨stC3.registry, none, []⟩ [] 0).1.map FunctionDescription.name
      = (stC3.registry.schemas.map Prod.fst).filter
          (fun n => (filter_functions stC3.registry [] 0).contains n) :=
  (C3_prepare_for_llm stC3.registry [] 0 (by decide)).1

/-! ### Claim C10 -/

/-- Claim C10: once the description list has been computed (the
lru_cache slot is filled), every later get_function_descriptions call
returns that frozen list, and a callable registered afterwards never
appears in any subsequent prepare_for_llm output, even when its
eligibility conditions are met. -/
theorem C10_frozen_descriptions {T : Type} [LinearOrderedAddCommGroup T]
    (st : SmartCallerState T) (ds : List FunctionDescription)
    (h : st.desc_cache = some ds) (f : Func) (schema : FunctionSchema T)
    (hn : schema.name ∉ ds.map FunctionDescription.name)
    (context : List String) (now : T) :
    ((get_function_descriptions (register_function st f schema)).1 = ds)
    ∧ (schema.name ∉
        (prepare_for_llm (register_function st f schema) context now).1.map
          FunctionDescription.name) := by
  have hcache : (register_function st f schema).desc_cache = some ds := h
  constructor
  · simp only [get_function_descriptions, hcache]
  · intro hmem
    simp only [prepare_for_llm, get_function_descriptions, hcache] at hmem
    rcases List.mem_map.mp hmem with ⟨d, hd, hdn⟩
    exact hn (hdn ▸ List.mem_map_of_mem FunctionDescription.name (List.mem_of_mem_filter hd))

/-- The schema registered after the description list was frozen. -/
def schemaC10 : FunctionSchema ℤ :=
  { name := "late", description := "d", parameters := [], required_params := [],
    context_requirements := [], priority := 5, cooldown := 0 }

/-- A SmartCaller whose description list was already computed (and
empty) before any registration. -/
def stC10 : SmartCallerState ℤ :=
  { registry := emptyRegistry ℤ, desc_cache := some [], results_cache := [] }

/-- Closed instance of the C10 theorem: the late registration is
eligible yet invisible to prepare_for_llm, and the frozen description
list is returned unchanged. -/
theorem C10_witness :
    ((get_function_descriptions (register_function stC10 funcC3 schemaC10)).1 = [])
    ∧ ("late" ∉
        (prepare_for_llm (register_function stC10 funcC3 schemaC10) [] 0).1.map
          FunctionDescription.name) :=
  C10_frozen_descriptions stC10 [] rfl funcC3 schemaC10 (by decide) [] 0

/-! ### Helper lemmas on Except and validation -/

theorem exceptIsOk_map {e1 α β : Type} (f : α → β) (e : Except e1 α) :
    (e.map f).isOk = e.isOk := by
  cases e <;> rfl

theorem exceptMap_eq_ok {e1 α β : Type} (f : α → β) (e : Except e1 α) (b : β) :
    e.map f = .ok b ↔ ∃ a, e = .ok a ∧ b = f a := by
  cases e with
  | error err => simp [Except.map]
  | ok a =>
      simp [Except.map]
      exact eq_comm

theorem lookup_isSome_of_mem_fst {β : Type} (d : List (String × β)) (n : String)
    (h : n ∈ d.map Prod.fst) : (d.lookup n).isSome = true := by
  induction d with
  | nil => simp at h
  | cons p rest ih =>
      rw [List.map_cons, List.mem_cons] at h
      rcases p with ⟨k, v⟩
      by_cases he : n = k
      · subst he
        simp [List.lookup]
      · rcases h with h1 | h1
        · exact absurd h1 he
        · have hbeq : (n == k) = false := beq_eq_false_iff_ne.mpr he
          simp [List.lookup, hbeq, ih h1]

theorem validateFields_isOk_false_iff (props : List (String × JsonType)) (data : Params) :
    (validateFields props data).isOk = false
      ↔ ∃ pn ty v, (pn, ty) ∈ props ∧ data.lookup pn = some v ∧ coerceValue ty v = none := by
  induction props with
  | nil => simp [validateFields, Except.isOk, Except.toBool]
  | cons q rest ih =>
      rcases q with ⟨n, ty⟩
      cases hl : data.lookup n with
      | none =>
          simp only [validateFields, hl]
          rw [exceptIsOk_map, ih]
          constructor
          · rintro ⟨pn, ty2, v, hp, hv, hc⟩
            exact ⟨pn, ty2, v, List.mem_cons_of_mem _ hp, hv, hc⟩
          · rintro ⟨pn, ty2, v, hp, hv, hc⟩
            rcases List.mem_cons.mp hp with heq | hp2
            · have hn2 : pn = n := congrArg Prod.fst heq
              subst hn2
              rw [hl] at hv
              exact Option.noConfusion hv
            · exact ⟨pn, ty2, v, hp2, hv, hc⟩
      | some v0 =>
          cases hc : coerceValue ty v0 with
          | none =>
              simp only [validateFields, hl, hc]
              constructor
              · intro _
                exact ⟨n, ty, v0, List.mem_cons_self _ _, hl, hc⟩
              · intro _
                rfl
          | some v2 =>
              simp only [validateFields, hl, hc]
              rw [exceptIsOk_map, ih]
              constructor
              · rintro ⟨pn, ty2, v, hp, hv, hcc⟩
                exact ⟨pn, ty2, v, List.mem_cons_of_mem _ hp, hv, hcc⟩
              · rintro ⟨pn, ty2, v, hp, hv, hcc⟩
                rcases List.mem_cons.mp hp with heq | hp2
                · have hn2 : pn = n := congrArg Prod.fst heq
                  have hty : ty2 = ty := congrArg Prod.snd heq
                  subst hn2
                  subst hty
                  rw [hl] at hv
                  obtain rfl := Option.some.inj hv
                  rw [hc] at hcc
                  exact Option.noConfusion hcc
                · exact ⟨pn, ty2, v, hp2, hv, hcc⟩

theorem validateFields_keys (props : List (String × JsonType)) (data : Params)
    (m : Params) (h : validateFields props data = .ok m) :
    m.map Prod.fst = props.map Prod.fst := by
  induction props generalizing m with
  | nil =>
      obtain rfl := Except.ok.inj h
      rfl
  | cons q rest ih =>
      rcases q with ⟨n, ty⟩
      cases hl : data.lookup n with
      | none =>
          simp only [validateFields, hl] at h
          rcases (exceptMap_eq_ok _ _ _).mp h with ⟨m2, hm2, rfl⟩
          simp [ih m2 hm2]
      | some v =>
          cases hc : coerceValue ty v with
          | none =>
              simp only [validateFields, hl, hc] at h
              exact Except.noConfusion h
          | some v2 =>
              simp only [validateFields, hl, hc] at h
              rcases (exceptMap_eq_ok _ _ _).mp h with ⟨m2, hm2, rfl⟩
              simp [ih m2 hm2]

/-! ### Claim C4 -/

/-- Claim C4: validation of raw arguments against a registered schema
fails if and only if some required parameter is absent from the raw
arguments or some supplied value for a declared parameter cannot be
coerced to its schema type tag; and on success the validated mapping
binds exactly the declared parameter names, so extra raw-argument keys
outside the schema are ignored and never cause failure. -/
theorem C4_validation {T : Type} (reg : FunctionRegistry T) (nm : String)
    (schema : FunctionSchema T) (args : Params)
    (hs : reg.schemas.lookup nm = some schema) :
    ((build_parameters reg nm args).isOk = false
      ↔ (∃ r ∈ schema.required_params, args.lookup r = none)
        ∨ (∃ pn ty v, (pn, ty) ∈ schema.parameters ∧ args.lookup pn = some v
            ∧ coerceValue ty v = none))
    ∧ (∀ m, build_parameters reg nm args = .ok m →
        m.map Prod.fst = schema.parameters.map Prod.fst) := by
  constructor
  · simp only [build_parameters, hs]
    cases hfind : schema.required_params.find? (fun r => (args.lookup r).isNone) with
    | some r =>
        constructor
        · intro _
          refine Or.inl ⟨r, List.mem_of_find?_eq_some hfind, ?_⟩
          have hp := List.find?_some hfind
          simpa using hp
        · intro _
          rfl
    | none =>
        rw [validateFields_isOk_false_iff]
        constructor
        · intro hc
          exact Or.inr hc
        · rintro (⟨r, hr, hnone⟩ | hc)
          · exact absurd (by simp [hnone]) (List.find?_eq_none.mp hfind r hr)
          · exact hc
  · intro m hm
    simp only [build_parameters, hs] at hm
    cases hfind : schema.required_params.find? (fun r => (args.lookup r).isNone) with
    | some r =>
        rw [hfind] at hm
        exact Except.noConfusion hm
    | none =>
        rw [hfind] at hm
        exact validateFields_keys _ _ _ hm

/-- The add schema of the spec scenario: two required integers. -/
def schemaAdd : FunctionSchema ℤ :=
  { name := "add", description := "d", parameters := [("a", .integer), ("b", .integer)],
    required_params := ["a", "b"], context_requirements := [], priority := 5, cooldown := 0 }

/-- Registry holding the add schema. -/
def regC4 : FunctionRegistry ℤ := registerR (emptyRegistry ℤ) (fun _ => .ok .null) schemaAdd

/-- Closed instance of the C4 theorem on the spec scenario: the string
x supplied for the integer parameter a cannot be coerced, so
validation fails. -/
theorem C4_witness :
    (build_parameters regC4 "add" [("a", .str "x"), ("b", .int 3)]).isOk = false :=
  ((C4_validation regC4 "add" schemaAdd [("a", .str "x"), ("b", .int 3)] rfl).1).mpr
    (Or.inr ⟨"a", .integer, .str "x", by decide, rfl, rfl⟩)

/-! ### Claim C7 -/

theorem coerceValue_idem (ty : JsonType) (v v2 : Value) (h : coerceValue ty v = some v2) :
    coerceValue ty v2 = some v2 := by
  cases ty with
  | string =>
      cases v <;> simp only [coerceValue] at h <;> try exact Option.noConfusion h
      obtain rfl := Option.some.inj h
      rfl
  | integer =>
      cases v with
      | int n =>
          obtain rfl := Option.some.inj h
          rfl
      | num q =>
          simp only [coerceValue] at h
          split at h
          · obtain rfl := Option.some.inj h
            rfl
          · exact Option.noConfusion h
      | str s =>
          simp only [coerceValue] at h
          rcases Option.map_eq_some'.mp h with ⟨k, hk, rfl⟩
          rfl
      | null => exact Option.noConfusion h
      | bool b => exact Option.noConfusion h
      | arr l => exact Option.noConfusion h
      | obj l => exact Option.noConfusion h
  | number =>
      cases v with
      | int n =>
          obtain rfl := Option.some.inj h
          rfl
      | num q =>
          obtain rfl := Option.some.inj h
          rfl
      | str s =>
          simp only [coerceValue] at h
          rcases Option.map_eq_some'.mp h with ⟨r, hr, rfl⟩
          rfl
      | null => exact Option.noConfusion h
      | bool b => exact Option.noConfusion h
      | arr l => exact Option.noConfusion h
      | obj l => exact Option.noConfusion h
  | boolean =>
      cases v with
      | bool b =>
          obtain rfl := Option.some.inj h
          rfl
      | int n =>
          simp only [coerceValue] at h
          split at h
          · obtain rfl := Option.some.inj h
            rfl
          · split at h
            · obtain rfl := Option.some.inj h
              rfl
            · exact Option.noConfusion h
      | num q =>
          simp only [coerceValue] at h
          split at h
          · obtain rfl := Option.some.inj h
            rfl
          · split at h
            · obtain rfl := Option.some.inj h
              rfl
            · exact Option.noConfusion h
      | str s =>
          simp only [coerceValue] at h
          rcases Option.map_eq_some'.mp h with ⟨b, hb, rfl⟩
          rfl
      | null => exact Option.noConfusion h
      | arr l => exact Option.noConfusion h
      | obj l => exact Option.noConfusion h
  | array =>
      cases v <;> simp only [coerceValue] at h <;> try exact Option.noConfusion h
      obtain rfl := Option.some.inj h
      rfl
  | object =>
      cases v <;> simp only [coerceValue] at h <;> try exact Option.noConfusion h
      obtain rfl := Option.some.inj h
      rfl

theorem validateFields_congr (props : List (String × JsonType)) (d1 d2 : Params)
    (h : ∀ p ∈ props, d1.lookup p.1 = d2.lookup p.1) :
    validateFields props d1 = validateFields props d2 := by
  induction props with
  | nil => rfl
  | cons q rest ih =>
      rcases q with ⟨n, ty⟩
      have hn : d1.lookup n = d2.lookup n := h (n, ty) (List.mem_cons_self _ _)
      simp only [validateFields]
      rw [hn, ih (fun p hp => h p (List.mem_cons_of_mem _ hp))]

theorem validateFields_revalidate (props : List (String × JsonType)) (data m : Params)
    (hnd : (props.map Prod.fst).Nodup)
    (hall : ∀ p ∈ props, (data.lookup p.1).isSome = true)
    (hok : validateFields props data = .ok m) :
    validateFields props m = .ok m := by
  induction props generalizing data m with
  | nil =>
      obtain rfl := Except.ok.inj hok
      rfl
  | cons q rest ih =>
      rcases q with ⟨n, ty⟩
      rw [List.map_cons] at hnd
      have hnmem : n ∉ rest.map Prod.fst := (List.nodup_cons.mp hnd).1
      have hndrest : (rest.map Prod.fst).Nodup := (List.nodup_cons.mp hnd).2
      cases hl : data.lookup n with
      | none =>
          have hsome : (data.lookup n).isSome = true := hall (n, ty) (List.mem_cons_self _ _)
          rw [hl] at hsome
          exact Bool.noConfusion hsome
      | some v =>
          cases hc : coerceValue ty v with
          | none =>
              simp only [validateFields, hl, hc] at hok
              exact Except.noConfusion hok
          | some v2 =>
              simp only [validateFields, hl, hc] at hok
              rcases (exceptMap_eq_ok _ _ _).mp hok with ⟨mrest, hmrest, rfl⟩
              have hlook : List.lookup n ((n, v2) :: mrest) = some v2 := by
                simp [List.lookup]
              simp only [validateFields, hlook, coerceValue_idem ty v v2 hc]
              have hcongr : validateFields rest ((n, v2) :: mrest)
                  = validateFields rest mrest := by
                refine validateFields_congr rest _ _ (fun p hp => ?_)
                have hne : p.1 ≠ n := by
                  intro he
                  exact hnmem (he ▸ List.mem_map_of_mem Prod.fst hp)
                have hbeq : (p.1 == n) = false := beq_eq_false_iff_ne.mpr hne
                simp [List.lookup, hbeq]
              rw [hcongr,
                ih data mrest hndrest (fun p hp => hall p (List.mem_cons_of_mem _ hp)) hmrest]
              rfl

/-- Claim C7, amended: validation is idempotent for a registered
schema whose required parameters are all declared parameters and whose
declared parameter names are distinct (both hold for every schema the
registry synthesizes from a callable signature), provided the raw
arguments supply every declared parameter; without that proviso the
validated mapping contains a None placeholder for each optional
parameter that was left unsupplied, and re-validating such a mapping
fails (see the counterexample). -/
theorem C7_validation_idem {T : Type} (reg : FunctionRegistry T) (nm : String)
    (schema : FunctionSchema T) (args m : Params)
    (hs : reg.schemas.lookup nm = some schema)
    (hnd : (schema.parameters.map Prod.fst).Nodup)
    (hreq : ∀ r ∈ schema.required_params, r ∈ schema.parameters.map Prod.fst)
    (hall : ∀ p ∈ schema.parameters, (args.lookup p.1).isSome = true)
    (hok : build_parameters reg nm args = .ok m) :
    build_parameters reg nm m = .ok m := by
  simp only [build_parameters, hs] at hok ⊢
  cases hfind : schema.required_params.find? (fun r => (args.lookup r).isNone) with
  | some r =>
      rw [hfind] at hok
      exact Except.noConfusion hok
  | none =>
      rw [hfind] at hok
      have hkeys := validateFields_keys _ _ _ hok
      have hfind2 : schema.required_params.find? (fun r => (m.lookup r).isNone) = none := by
        rw [List.find?_eq_none]
        intro r hr
        have hsome := lookup_isSome_of_mem_fst m r (by rw [hkeys]; exact hreq r hr)
        rcases Option.isSome_iff_exists.mp hsome with ⟨v, hv⟩
        simp [hv]
      rw [hfind2]
      exact validateFields_revalidate _ _ _ hnd hall hok

/-- Schema with a single optional integer parameter. -/
def schemaC7 : FunctionSchema ℤ :=
  { name := "opt", description := "d", parameters := [("b", .integer)],
    required_params := [], context_requirements := [], priority := 5, cooldown := 0 }

/-- Registry holding the optional-parameter schema. -/
def regC7 : FunctionRegistry ℤ := registerR (emptyRegistry ℤ) (fun _ => .ok .null) schemaC7

/-- Claim C7, counterexample: validating an empty raw-argument mapping
against a schema with one optional integer parameter succeeds and
yields the mapping binding that parameter to None (model_dump emits
the defaulted field); re-validating that very result against the same
schema fails, because None cannot be coerced to the integer tag, so
validation is not idempotent as claimed. -/
theorem C7_counterexample :
    (build_parameters regC7 "opt" [] = .ok [("b", Value.null)])
    ∧ ((build_parameters regC7 "opt" [("b", Value.null)]).isOk = false) :=
  ⟨rfl, rfl⟩

/-- Closed instance of the C7 theorem: every parameter of the add
schema is supplied, validation coerces the string 2 to the integer 2,
and re-validating the validated mapping returns it unchanged. -/
theorem C7_witness :
    build_parameters regC4 "add" [("a", Value.int 1), ("b", Value.int 2)]
      = .ok [("a", Value.int 1), ("b", Value.int 2)] :=
  C7_validation_idem regC4 "add" schemaAdd [("a", Value.int 1), ("b", Value.str "2")]
    [("a", Value.int 1), ("b", Value.int 2)] rfl (by decide) (by decide) (by decide) rfl

/-! ### Claim C9 -/

/-- Claim C9: serializing a session-state tracker to its JSON document
and deserializing the result (the constructor running at instant now)
yields a tracker with identical state contents, identical history
contents, and identical created-at and last-updated timestamps; the
session id is also preserved whenever it is non-empty, while an empty
(falsy) session id is regenerated by the constructor fallback. Only
the ttl is not serialized and reverts to the constructor default. -/
theorem C9_state_roundtrip (t : StateTracker) (now : ℤ) :
    ∃ t2, from_json (to_json t) now = some t2 ∧ t2.state = t.state ∧ t2.history = t.history
      ∧ t2.created_at = t.created_at ∧ t2.last_updated = t.last_updated
      ∧ (t.session_id ≠ "" → t2.session_id = t.session_id)
      ∧ (t.session_id = "" → t2.session_id = "session_" ++ toString now) :=
  ⟨{ session_id := if t.session_id = "" then "session_" ++ toString now else t.session_id,
     ttl := 3600, created_at := t.created_at,
     last_updated := t.last_updated, state := t.state, history := t.history },
    rfl, rfl, rfl, rfl, rfl, fun h => if_neg h, fun h => if_pos h⟩

/-- Concrete tracker for the C9 instance. -/
def trackerC9 : StateTracker :=
  { session_id := "session_1", ttl := 60, created_at := 1, last_updated := 2,
    state := [("k", Value.str "v")], history := [Value.str "event"] }

/-- Closed instance of the C9 theorem on a concrete tracker with a
non-empty session id, deserialized at instant 0. -/
theorem C9_witness :
    ∃ t2, from_json (to_json trackerC9) 0 = some t2 ∧ t2.state = trackerC9.state
      ∧ t2.history = trackerC9.history ∧ t2.created_at = trackerC9.created_at
      ∧ t2.last_updated = trackerC9.last_updated
      ∧ (trackerC9.session_id ≠ "" → t2.session_id = trackerC9.session_id)
      ∧ (trackerC9.session_id = "" → t2.session_id = "session_" ++ toString (0 : ℤ)) :=
  C9_state_roundtrip trackerC9 0
